import Mathlib

/-!
Verification of the content-rendering pipeline of a personal portfolio
site: the heading slug deriver (`slugify` / `extractTextFromElement`),
the link transformer (`CustomLink`), the image transformer
(`createImage`), the code-block transformer (`createCodeBlock`), the
component-table merge of `CustomMDX`, the cookie auth endpoint (`GET`),
and the project-list sorter (`Projects`).

The JavaScript/TSX source is embedded shallowly: strings are Lean
`String`s (lists of characters), React nodes are an inductive tree,
regex-based `String.replace` calls become explicit list transformations,
and HTTP responses become records of (status, payload).  JS string
builtins (`toLowerCase`, `toUpperCase`) are modelled on their ASCII
fragment, and the regex classes `\s` / `\w` on their ASCII members,
which covers every input the claims mention.
-/

/-- A React node as `slugify` and `extractTextFromElement` see it:
a string leaf, a markup element (`React.isValidElement`) carrying the
value of its `props.children`, a JS array of nodes, or any other JS
value (`number`, `null`, `undefined`, ...) represented by the string
`String(v)` that the JS coercion in `slugify`'s final branch produces. -/
inductive RNode where
  | str : String → RNode
  | elem : RNode → RNode
  | arr : List RNode → RNode
  | other : String → RNode

/-- The body of `extractTextFromElement` applied to one child value:
a string child is returned as is; an element child whose own children
are a string yields that string; an element child whose own children
are an array concatenates the mapped children (`.map(...).join("")`);
every other shape (an element whose children are a lone element, an
array, or any other value) contributes `""`, exactly as the source's
fall-through `return ""` and the array callback's final `: ""` do. -/
def extractChild : RNode → String
  | .str s => s
  | .elem (.str s) => s
  | .elem (.arr l) => String.join (l.attach.map fun x => extractChild x.1)
  | _ => ""
termination_by n => sizeOf n
decreasing_by
  simp_wf
  have := List.sizeOf_lt_of_mem x.2
  omega

/-- `extractTextFromElement` from the source: inspects
`element.props.children`; returns it when it is a string, maps and
joins when it is an array, and returns `""` otherwise. -/
def extractTextFromElement (element : RNode) : String :=
  match element with
  | .elem _ => extractChild element
  | _ => ""

/-- The text-gathering phase of `slugify`: a string argument is used
directly, a React element goes through `extractTextFromElement`, an
array maps each item (string as is, element through
`extractTextFromElement`, anything else to `""`) and joins, and any
other value is coerced with `String(str)`. -/
def slugifyText : RNode → String
  | .str s => s
  | .elem ch => extractTextFromElement (.elem ch)
  | .arr l =>
    String.join (l.map fun item =>
      match item with
      | .str s => s
      | .elem ch => extractTextFromElement (.elem ch)
      | .arr _ => ""
      | .other _ => "")
  | .other s => s

/-- JS `String.prototype.toLowerCase` on its ASCII fragment: `A`-`Z`
map to `a`-`z`, everything else is unchanged. -/
def jsToLower (c : Char) : Char :=
  if 65 ≤ c.toNat ∧ c.toNat ≤ 90 then Char.ofNat (c.toNat + 32) else c

/-- JS `String.prototype.toUpperCase` on its ASCII fragment. -/
def jsToUpper (c : Char) : Char :=
  if 97 ≤ c.toNat ∧ c.toNat ≤ 122 then Char.ofNat (c.toNat - 32) else c

/-- The ASCII members of the regex class `\s`: space, tab, line feed,
vertical tab, form feed, carriage return. -/
def isJsWhitespace (c : Char) : Bool :=
  decide (c.toNat = 32 ∨ c.toNat = 9 ∨ c.toNat = 10 ∨ c.toNat = 13 ∨
    c.toNat = 11 ∨ c.toNat = 12)

/-- The regex class `\w`: `[A-Za-z0-9_]`. -/
def isWordChar (c : Char) : Bool :=
  decide ((97 ≤ c.toNat ∧ c.toNat ≤ 122) ∨ (65 ≤ c.toNat ∧ c.toNat ≤ 90) ∨
    (48 ≤ c.toNat ∧ c.toNat ≤ 57) ∨ c.toNat = 95)

def isHyphen (c : Char) : Bool :=
  decide (c = '-')

/-- `s.replace(/X+/g, rep)` for a character class `X` given by `p`:
every maximal run of characters satisfying `p` is replaced by `rep`.
The flag tracks whether the previous character was part of a run. -/
def collapseRunsAux (p : Char → Bool) (rep : List Char) : Bool → List Char → List Char
  | _, [] => []
  | inRun, c :: cs =>
    if p c then (if inRun then [] else rep) ++ collapseRunsAux p rep true cs
    else c :: collapseRunsAux p rep false cs

def collapseRuns (p : Char → Bool) (rep : List Char) (l : List Char) : List Char :=
  collapseRunsAux p rep false l

/-- `s.replace(/&/g, "-and-")`: each `&` becomes `-and-`. -/
def ampExpand : List Char → List Char
  | [] => []
  | c :: cs => (if c = '&' then ['-', 'a', 'n', 'd', '-'] else [c]) ++ ampExpand cs

/-- The normalization chain of `slugify`, applied to the flattened
text, in source order: lowercase; `replace(/\s+/g, "-")`;
`replace(/&/g, "-and-")`; `replace(/[^\w\-]+/g, "")` (a removal, hence
a filter); `replace(/\-\-+/g, "-")` (runs of two or more hyphens
collapse to one, lone hyphens match nothing and stay, so it is the
maximal-run collapse with a one-hyphen replacement). -/
def listSlugify (l : List Char) : List Char :=
  collapseRuns isHyphen ['-']
    (List.filter (fun c => isWordChar c || isHyphen c)
      (ampExpand (collapseRuns isJsWhitespace ['-'] (l.map jsToLower))))

def slugifyString (s : String) : String :=
  ⟨listSlugify s.data⟩

/-- `slugify` from the source: flatten the argument to text, then
normalize. -/
def slugify (node : RNode) : String :=
  slugifyString (slugifyText node)

/-- What an HTTP response of the auth endpoint carries: the status code
and the `authenticated` field of the JSON payload. -/
structure AuthResponse where
  status : Nat
  authenticated : Bool
deriving DecidableEq

/-- The `GET` handler of the auth route.  The external `cookie.parse`
call is modelled by its result: the association list of cookie
(name, value) pairs taken from the request's cookie header (a missing
header parses to the empty list); `cookies.authToken` is the first
entry named `"authToken"`. -/
def authGET (cookies : List (String × String)) : AuthResponse :=
  if cookies.lookup "authToken" = some "authenticated" then ⟨200, true⟩
  else ⟨401, false⟩

/-- Whether `pat` begins the list `l` (character for character): the
model of JS `String.prototype.startsWith` and of the anchoring of a
plain-string pattern in `String.prototype.replace`. -/
def leadMatch : List Char → List Char → Bool
  | [], _ => true
  | _ :: _, [] => false
  | p :: ps, c :: cs => p == c && leadMatch ps cs

/-- The output shapes of `CustomLink`: the internal `SmartLink`
component, or an `<a>` anchor with its `target` and `rel` attributes
(`none` when the attribute is not set). -/
inductive LinkRender where
  | smartLink (href : String)
  | anchor (href : String) (target : Option String) (rel : Option String)
deriving DecidableEq

/-- `CustomLink` from the source: internal paths go to `SmartLink`,
same-page anchors to a plain `<a>`, everything else to an `<a>` with
`target="_blank"` and `rel="noopener noreferrer"`. -/
def CustomLink (href : String) : LinkRender :=
  if leadMatch "/".data href.data then .smartLink href
  else if leadMatch "#".data href.data then .anchor href none none
  else .anchor href (some "_blank") (some "noopener noreferrer")

/-- What `createImage` produces: `node` is the rendered `SmartImage`'s
source (`none` when the function returns `null`), `loggedError` records
whether `console.error` was called. -/
structure ImageResult where
  node : Option String
  loggedError : Bool
deriving DecidableEq

/-- `createImage` from the source: `if (!src)` — a missing or empty
(falsy) `src` logs an error and returns `null`; otherwise a
`SmartImage` with that `src` is rendered. -/
def createImage (src : Option String) : ImageResult :=
  match src with
  | none => ⟨none, true⟩
  | some "" => ⟨none, true⟩
  | some s => ⟨some s, false⟩

/-- A run of image nodes through the transformer: React renders each
sibling independently, so a document's image nodes map elementwise. -/
def renderImages (srcs : List (Option String)) : List ImageResult :=
  srcs.map createImage

/-- The `props.children.props` of a `<pre>` node as `createCodeBlock`
reads them: the optional `className` annotation and the code text
(`children`). -/
structure CodeChildProps where
  className : Option String
  children : String
deriving DecidableEq

/-- The props of a `<pre>` node: `children` is the inner code element
when there is one. -/
structure PreProps where
  children : Option CodeChildProps
deriving DecidableEq

/-- The output shapes of `createCodeBlock`: a `CodeBlock` component
with one code instance, or the raw `<pre {...props}>` fallback. -/
inductive CodeBlockRender where
  | codeBlock (code language label : String) (copyButton : Bool)
  | rawPre (props : PreProps)
deriving DecidableEq

/-- JS `s.replace(pat, rep)` with a plain string pattern: only the
first occurrence of `pat` is replaced. -/
def replaceFirst (pat rep : List Char) : List Char → List Char
  | [] => if leadMatch pat [] then rep else []
  | c :: cs =>
    if leadMatch pat (c :: cs) then rep ++ List.drop pat.length (c :: cs)
    else c :: replaceFirst pat rep cs

/-- `language.charAt(0).toUpperCase() + language.slice(1)`. -/
def capitalizeFirst : List Char → List Char
  | [] => []
  | c :: cs => jsToUpper c :: cs

/-- `createCodeBlock` from the source: when
`props.children?.props?.className` is truthy (present and nonempty),
strip the first `"language-"` from it, capitalize the first letter for
the label, and render a `CodeBlock` with the copy button enabled;
otherwise fall back to the raw `<pre>`. -/
def createCodeBlock (props : PreProps) : CodeBlockRender :=
  match props.children with
  | some child =>
    match child.className with
    | some className =>
      if className = "" then .rawPre props
      else
        let language : String := ⟨replaceFirst "language-".data "".data className.data⟩
        let label : String := ⟨capitalizeFirst language.data⟩
        .codeBlock child.children language label true
    | none => .rawPre props
  | none => .rawPre props

/-- Lookup in a JS object literal built by successive assignments: the
object is the list of (key, value) assignments in evaluation order and
a later assignment to the same key wins, which is the semantics of
`{ ...a, ...b }`. -/
def objLookup {α : Type} : List (String × α) → String → Option α
  | [], _ => none
  | (k, v) :: rest, key =>
    match objLookup rest key with
    | some v2 => some v2
    | none => if k = key then some v else none

/-- The component table `CustomMDX` hands to `MDXRemote`:
`{ ...components, ...(props.components || {}) }` — the default table's
entries followed by the caller's override entries (or none at all when
`props.components` is absent). -/
def customMDXComponents {α : Type} (defaults : List (String × α))
    (propsComponents : Option (List (String × α))) : List (String × α) :=
  defaults ++ propsComponents.getD []

/-- The metadata fields of a post record that the `Projects` sorter
touches; `publishedAt` is modelled by the epoch-milliseconds value that
`new Date(...).getTime()` yields for the date string. -/
structure PostMetadata where
  title : String
  summary : String
  publishedAt : Nat
deriving DecidableEq

/-- A post record as returned by `getPosts`. -/
structure Post where
  slug : String
  metadata : PostMetadata
  content : String
deriving DecidableEq

/-- The comparator of the `Projects` sorter:
`new Date(b...).getTime() - new Date(a...).getTime()`. -/
def projectsCompare (a b : Post) : Int :=
  (b.metadata.publishedAt : Int) - (a.metadata.publishedAt : Int)

/-- `allProjects.sort(comparator)` from `Projects`, modelled as the
stable merge sort ECMAScript requires of `Array.prototype.sort`:
`a` may precede `b` exactly when the comparator does not order `b`
strictly before `a`. -/
def sortProjects (l : List Post) : List Post :=
  l.mergeSort (fun a b => decide (projectsCompare a b ≤ 0))

/-- A character is not an ASCII uppercase letter. -/
def notUpper (c : Char) : Prop :=
  ¬(65 ≤ c.toNat ∧ c.toNat ≤ 90)

/-- A character that can appear in a finished slug: a word character
or a hyphen, and in any case not an uppercase letter. -/
def slugCharOK (c : Char) : Prop :=
  (isWordChar c = true ∨ c = '-') ∧ notUpper c

/-- No two adjacent hyphens. -/
def noDoubleHyphen (l : List Char) : Prop :=
  List.Chain' (fun a b => ¬(a = '-' ∧ b = '-')) l

/-- The normal form `listSlugify` produces: every character is a
non-uppercase word character or hyphen, and hyphens never touch. -/
def isSlugList (l : List Char) : Prop :=
  (∀ c ∈ l, slugCharOK c) ∧ noDoubleHyphen l

theorem toNat_ofNat_valid (n : Nat) (h : n.isValidChar) :
    (Char.ofNat n).toNat = n := by
  simp only [Char.ofNat, h, dite_true, Char.ofNatAux, Char.toNat, UInt32.toNat,
    BitVec.ofNatLt]
  rfl

theorem jsToLower_notUpper (c : Char) : notUpper (jsToLower c) := by
  unfold jsToLower notUpper
  split
  · rename_i h
    have hv : (c.toNat + 32).isValidChar := Or.inl (by omega)
    rw [toNat_ofNat_valid _ hv]
    omega
  · rename_i h
    exact h

theorem jsToLower_id {c : Char} (h : notUpper c) : jsToLower c = c := by
  unfold jsToLower
  rw [if_neg h]

theorem mem_collapseRunsAux {p : Char → Bool} {rep : List Char} :
    ∀ {l : List Char} {b : Bool} {c : Char},
      c ∈ collapseRunsAux p rep b l → c ∈ rep ∨ (c ∈ l ∧ p c = false) := by
  intro l
  induction l with
  | nil => intro b c h; simp [collapseRunsAux] at h
  | cons a as ih =>
    intro b c h
    unfold collapseRunsAux at h
    by_cases hp : p a
    · rw [if_pos hp] at h
      rcases List.mem_append.1 h with h1 | h2
      · cases b with
        | true => simp at h1
        | false => exact Or.inl h1
      · rcases ih h2 with h3 | ⟨h4, h5⟩
        · exact Or.inl h3
        · exact Or.inr ⟨List.mem_cons_of_mem _ h4, h5⟩
    · rw [if_neg hp] at h
      rcases List.mem_cons.1 h with h1 | h2
      · exact Or.inr ⟨h1 ▸ List.mem_cons_self _ _, h1 ▸ Bool.eq_false_iff.2 hp⟩
      · rcases ih h2 with h3 | ⟨h4, h5⟩
        · exact Or.inl h3
        · exact Or.inr ⟨List.mem_cons_of_mem _ h4, h5⟩

theorem collapseRunsAux_id {p : Char → Bool} {rep : List Char} :
    ∀ {l : List Char} (b : Bool), (∀ c ∈ l, p c = false) →
      collapseRunsAux p rep b l = l := by
  intro l
  induction l with
  | nil => intro b _; rfl
  | cons a as ih =>
    intro b h
    unfold collapseRunsAux
    rw [if_neg (by simp [h a (List.mem_cons_self _ _)])]
    rw [ih false fun c hc => h c (List.mem_cons_of_mem _ hc)]

theorem collapseRunsAux_true_all {p : Char → Bool} {rep : List Char} :
    ∀ {l : List Char}, (∀ c ∈ l, p c = true) →
      collapseRunsAux p rep true l = [] := by
  intro l
  induction l with
  | nil => intro _; rfl
  | cons a as ih =>
    intro h
    unfold collapseRunsAux
    rw [if_pos (h a (List.mem_cons_self _ _))]
    show ([] : List Char) ++ _ = _
    rw [List.nil_append]
    exact ih fun c hc => h c (List.mem_cons_of_mem _ hc)

theorem collapseRuns_all_ws {p : Char → Bool} {rep : List Char} {a : Char}
    {as : List Char} (h : ∀ c ∈ a :: as, p c = true) :
    collapseRuns p rep (a :: as) = rep := by
  unfold collapseRuns collapseRunsAux
  rw [if_pos (h a (List.mem_cons_self _ _))]
  rw [collapseRunsAux_true_all fun c hc => h c (List.mem_cons_of_mem _ hc)]
  simp

theorem collapseRunsAux_true_head {p : Char → Bool} {rep : List Char} :
    ∀ {l c cs}, collapseRunsAux p rep true l = c :: cs → p c = false := by
  intro l
  induction l with
  | nil => intro c cs h; simp [collapseRunsAux] at h
  | cons a as ih =>
    intro c cs h
    unfold collapseRunsAux at h
    by_cases hp : p a
    · rw [if_pos hp] at h
      simp only [if_pos, List.nil_append] at h
      exact ih h
    · rw [if_neg hp] at h
      rw [List.cons.injEq] at h
      exact h.1 ▸ Bool.eq_false_iff.2 hp

theorem chain_collapseRunsAux_hyphen :
    ∀ (l : List Char) (b : Bool),
      List.Chain' (fun a b => ¬(a = '-' ∧ b = '-'))
        (collapseRunsAux isHyphen ['-'] b l) := by
  intro l
  induction l with
  | nil => intro b; simp [collapseRunsAux]
  | cons a as ih =>
    intro b
    unfold collapseRunsAux
    by_cases hp : isHyphen a
    · rw [if_pos hp]
      cases b with
      | true => simpa using ih true
      | false =>
        show List.Chain' _ ('-' :: collapseRunsAux isHyphen ['-'] true as)
        rw [List.chain'_cons']
        refine ⟨?_, ih true⟩
        intro d hd
        cases hh : collapseRunsAux isHyphen ['-'] true as with
        | nil => rw [hh] at hd; simp at hd
        | cons e es =>
          rw [hh] at hd
          simp only [List.head?_cons, Option.mem_def, Option.some.injEq] at hd
          have : isHyphen e = false := collapseRunsAux_true_head hh
          intro hcon
          rw [← hd] at hcon
          simp [isHyphen] at this
          exact this hcon.2
    · rw [if_neg hp]
      rw [List.chain'_cons']
      refine ⟨?_, ih false⟩
      intro d _
      intro hcon
      simp [isHyphen] at hp
      exact hp hcon.1

theorem collapseRunsAux_hyphen_id :
    ∀ {l : List Char}, List.Chain' (fun a b => ¬(a = '-' ∧ b = '-')) l →
      collapseRunsAux isHyphen ['-'] false l = l ∧
      ((∀ c, l.head? = some c → isHyphen c = false) →
        collapseRunsAux isHyphen ['-'] true l = l) := by
  intro l
  induction l with
  | nil => intro _; exact ⟨rfl, fun _ => rfl⟩
  | cons a as ih =>
    intro h
    rw [List.chain'_cons'] at h
    obtain ⟨hR, hchain⟩ := h
    obtain ⟨ih1, ih2⟩ := ih hchain
    constructor
    · unfold collapseRunsAux
      by_cases hp : isHyphen a
      · rw [if_pos hp]
        have ha : a = '-' := by simpa [isHyphen] using hp
        have hhead : ∀ c, as.head? = some c → isHyphen c = false := by
          intro c hc
          have := hR c hc
          simp [isHyphen]
          intro hc2
          exact this ⟨ha, hc2⟩
        rw [ih2 hhead, ha]
        rfl
      · rw [if_neg hp, ih1]
    · intro hhead
      unfold collapseRunsAux
      have hp : isHyphen a = false := hhead a rfl
      rw [if_neg (by simp [hp]), ih1]

theorem ampExpand_id : ∀ {l : List Char}, (∀ c ∈ l, c ≠ '&') →
    ampExpand l = l := by
  intro l
  induction l with
  | nil => intro _; rfl
  | cons a as ih =>
    intro h
    unfold ampExpand
    rw [if_neg (h a (List.mem_cons_self _ _))]
    rw [ih fun c hc => h c (List.mem_cons_of_mem _ hc)]
    rfl

theorem mem_ampExpand : ∀ {l : List Char} {c : Char}, c ∈ ampExpand l →
    c ∈ ['-', 'a', 'n', 'd'] ∨ (c ∈ l ∧ c ≠ '&') := by
  intro l
  induction l with
  | nil => intro c h; simp [ampExpand] at h
  | cons a as ih =>
    intro c h
    unfold ampExpand at h
    rcases List.mem_append.1 h with h1 | h2
    · by_cases ha : a = '&'
      · rw [if_pos ha] at h1
        left
        simp only [List.mem_cons, List.mem_singleton] at h1 ⊢
        tauto
      · rw [if_neg ha] at h1
        right
        simp only [List.mem_singleton] at h1
        exact ⟨h1 ▸ List.mem_cons_self _ _, h1 ▸ ha⟩
    · rcases ih h2 with h3 | ⟨h4, h5⟩
      · exact Or.inl h3
      · exact Or.inr ⟨List.mem_cons_of_mem _ h4, h5⟩

theorem mem_listSlugify {l : List Char} {c : Char} (h : c ∈ listSlugify l) :
    slugCharOK c := by
  unfold listSlugify at h
  rcases mem_collapseRunsAux h with h1 | ⟨h2, _⟩
  · simp only [List.mem_singleton] at h1
    subst h1
    exact ⟨Or.inr rfl, by unfold notUpper; decide⟩
  · have hfil := List.mem_filter.1 h2
    obtain ⟨hmem, hpred⟩ := hfil
    constructor
    · rcases Bool.or_eq_true _ _ ▸ hpred with hw | hh
      · exact Or.inl hw
      · exact Or.inr (by simpa [isHyphen] using hh)
    · rcases mem_ampExpand hmem with h3 | ⟨h4, _⟩
      · unfold notUpper
        fin_cases h3 <;> decide
      · rcases mem_collapseRunsAux h4 with h5 | ⟨h6, _⟩
        · simp only [List.mem_singleton] at h5
          subst h5
          unfold notUpper
          decide
        · obtain ⟨d, _, hd⟩ := List.mem_map.1 h6
          exact hd ▸ jsToLower_notUpper d

theorem isSlugList_listSlugify (l : List Char) : isSlugList (listSlugify l) :=
  ⟨fun _ hc => mem_listSlugify hc, chain_collapseRunsAux_hyphen _ false⟩

theorem listSlugify_of_isSlugList {l : List Char} (h : isSlugList l) :
    listSlugify l = l := by
  obtain ⟨hch, hchain⟩ := h
  have hlower : l.map jsToLower = l := by
    rw [List.map_congr_left fun c hc => jsToLower_id (hch c hc).2]
    exact List.map_id l
  have hnows : ∀ c ∈ l, isJsWhitespace c = false := by
    intro c hc
    obtain ⟨hw, _⟩ := hch c hc
    rcases hw with hw | hw
    · simp only [isWordChar, decide_eq_true_eq] at hw
      simp only [isJsWhitespace, decide_eq_false_iff_not]
      omega
    · subst hw; decide
  have hnoamp : ∀ c ∈ l, c ≠ '&' := by
    intro c hc hcon
    obtain ⟨hw, _⟩ := hch c hc
    rcases hw with hw | hw
    · rw [hcon] at hw
      simp [isWordChar] at hw
    · rw [hcon] at hw
      simp at hw
  have hfil : List.filter (fun c => isWordChar c || isHyphen c) l = l := by
    rw [List.filter_eq_self]
    intro c hc
    obtain ⟨hw, _⟩ := hch c hc
    rcases hw with hw | hw
    · simp [hw]
    · simp [isHyphen, hw]
  unfold listSlugify collapseRuns
  rw [hlower, collapseRunsAux_id false hnows, ampExpand_id hnoamp, hfil]
  exact (collapseRunsAux_hyphen_id hchain).1

theorem listSlugify_idem (l : List Char) :
    listSlugify (listSlugify l) = listSlugify l :=
  listSlugify_of_isSlugList (isSlugList_listSlugify l)

theorem objLookup_append_some {α : Type} {b : List (String × α)} {k : String}
    {v : α} (a : List (String × α)) (h : objLookup b k = some v) :
    objLookup (a ++ b) k = some v := by
  induction a with
  | nil => simpa using h
  | cons kv rest ih =>
    obtain ⟨k1, v1⟩ := kv
    show objLookup ((k1, v1) :: (rest ++ b)) k = some v
    unfold objLookup
    rw [ih]

theorem objLookup_append_none {α : Type} {b : List (String × α)} {k : String}
    (a : List (String × α)) (h : objLookup b k = none) :
    objLookup (a ++ b) k = objLookup a k := by
  induction a with
  | nil => simpa using h
  | cons kv rest ih =>
    obtain ⟨k1, v1⟩ := kv
    show objLookup ((k1, v1) :: (rest ++ b)) k = objLookup ((k1, v1) :: rest) k
    unfold objLookup
    rw [ih]

/-- Claim C1 (corrected), counterexample: the slug deriver does not
trim — `slugify("  Multiple   Spaces  ")` is not `"multiple-spaces"`,
and a whitespace-only heading does not yield the empty string. -/
theorem slugify_trim_cex :
    slugify (.str "  Multiple   Spaces  ") ≠ "multiple-spaces" ∧
    slugify (.str " ") ≠ "" :=
  ⟨by decide, by decide⟩

/-- Claim C1 as amended: leading and trailing whitespace survives as
leading and trailing hyphens — `slugify("  Multiple   Spaces  ")`
returns `"-multiple-spaces-"`; empty heading content yields the empty
string, but every whitespace-only nonempty heading yields `"-"`. -/
theorem slugify_whitespace_edges :
    slugify (.str "  Multiple   Spaces  ") = "-multiple-spaces-" ∧
    slugify (.str "") = "" ∧
    ∀ s : String, s ≠ "" → (∀ c ∈ s.data, isJsWhitespace c = true) →
      slugify (.str s) = "-" := by
  refine ⟨by decide, by decide, ?_⟩
  intro s hne hws
  show (⟨listSlugify s.data⟩ : String) = "-"
  cases hd : s.data with
  | nil => exact absurd (String.ext (hd.trans rfl)) hne
  | cons a as =>
    rw [hd] at hws
    have hmap : (a :: as).map jsToLower = a :: as := by
      have h1 : ∀ c ∈ a :: as, jsToLower c = c := by
        intro c hc
        apply jsToLower_id
        have := hws c hc
        simp only [isJsWhitespace, decide_eq_true_eq] at this
        unfold notUpper
        omega
      rw [List.map_congr_left h1, List.map_id']
    unfold listSlugify
    rw [hmap, collapseRuns_all_ws hws]
    decide

theorem slugify_whitespace_edges_witness : slugify (.str " ") = "-" :=
  slugify_whitespace_edges.2.2 " " (by decide) (by decide)

/-- Claim C2 (corrected), counterexample: the flattener does not
descend into a markup node whose children value is a single markup
node (React's unwrapped lone child); such nesting contributes nothing,
so the doubly nested `"hello"` does not slug like `"hello"`. -/
theorem slugify_nested_single_cex :
    slugify (.elem (.elem (.str "hello"))) ≠ slugify (.str "hello") := by
  show slugifyString (extractTextFromElement (.elem (.elem (.str "hello")))) ≠
    slugifyString "hello"
  simp only [extractTextFromElement, extractChild]
  decide

/-- Claim C2 as amended: the flattener descends only through string
and array children — for an array-wrapped markup child holding a
string `s`, `slugify` agrees with `slugify(s)`; a markup node whose
children value is a lone (unwrapped) markup node contributes the empty
string, as does a markup node with no extractable text content. -/
theorem slugify_flatten_behavior (s t : String) :
    slugify (.elem (.arr [.elem (.str s)])) = slugify (.str s) ∧
    slugify (.elem (.elem (.str s))) = "" ∧
    extractTextFromElement (.elem (.other t)) = "" := by
  refine ⟨?_, ?_, by simp [extractTextFromElement, extractChild]⟩
  · show slugifyString (extractTextFromElement (.elem (.arr [.elem (.str s)]))) =
      slugifyString s
    congr 1
    simp [extractTextFromElement, extractChild, String.join]
  · show slugifyString (extractTextFromElement (.elem (.elem (.str s)))) = ""
    simp only [extractTextFromElement, extractChild]
    decide

/-- Claim C3: slug derivation is idempotent — for every string `x`,
`slugify(slugify(x)) = slugify(x)`. -/
theorem slugify_idempotent (x : String) :
    slugify (.str (slugify (.str x))) = slugify (.str x) := by
  show slugifyString (slugifyString x) = slugifyString x
  unfold slugifyString
  exact congrArg String.mk (listSlugify_idem x.data)

/-- Claim C4: the auth endpoint answers 200/authenticated exactly when
the parsed cookies hold `authToken = "authenticated"`, answers
401/unauthenticated in every other case, and produces no other status
or payload. -/
theorem authGET_spec (cookies : List (String × String)) :
    (authGET cookies = ⟨200, true⟩ ↔
      cookies.lookup "authToken" = some "authenticated") ∧
    (authGET cookies = ⟨401, false⟩ ↔
      ¬cookies.lookup "authToken" = some "authenticated") ∧
    (authGET cookies = ⟨200, true⟩ ∨ authGET cookies = ⟨401, false⟩) := by
  unfold authGET
  by_cases h : cookies.lookup "authToken" = some "authenticated" <;>
    simp [h]

/-- Claim C5: `CustomLink` sends paths starting `/` to the internal
`SmartLink`, fragment targets starting `#` to a plain anchor with no
target or rel attributes, and everything else to an external anchor
with `target="_blank"` and `rel="noopener noreferrer"`. -/
theorem customLink_classification (href : String) :
    (leadMatch "/".data href.data = true →
      CustomLink href = .smartLink href) ∧
    (leadMatch "/".data href.data = false →
      leadMatch "#".data href.data = true →
      CustomLink href = .anchor href none none) ∧
    (leadMatch "/".data href.data = false →
      leadMatch "#".data href.data = false →
      CustomLink href = .anchor href (some "_blank") (some "noopener noreferrer")) := by
  unfold CustomLink
  refine ⟨fun h1 => ?_, fun h1 h2 => ?_, fun h1 h2 => ?_⟩
  · rw [if_pos h1]
  · rw [if_neg (by simp [h1]), if_pos h2]
  · rw [if_neg (by simp [h1]), if_neg (by simp [h2])]

theorem customLink_classification_witness :
    CustomLink "/about" = .smartLink "/about" ∧
    CustomLink "#intro" = .anchor "#intro" none none ∧
    CustomLink "https://a.io" = .anchor "https://a.io" (some "_blank")
      (some "noopener noreferrer") :=
  ⟨(customLink_classification "/about").1 (by decide),
   (customLink_classification "#intro").2.1 (by decide) (by decide),
   (customLink_classification "https://a.io").2.2 (by decide) (by decide)⟩

/-- Claim C6: an image node with a missing or empty source logs an
error and renders no output node, and the remaining sibling image
nodes of the document render exactly as they would alone. -/
theorem createImage_missing_src (src : Option String)
    (h : src = none ∨ src = some "") :
    createImage src = ⟨none, true⟩ ∧
    ∀ pre post : List (Option String),
      renderImages (pre ++ src :: post) =
        renderImages pre ++ ⟨none, true⟩ :: renderImages post := by
  have h1 : createImage src = ⟨none, true⟩ := by
    rcases h with h | h <;> subst h <;> rfl
  refine ⟨h1, fun pre post => ?_⟩
  unfold renderImages
  rw [List.map_append, List.map_cons, h1]

theorem createImage_missing_src_witness :
    createImage (some "") = ⟨none, true⟩ ∧
    renderImages [some "a.png", some "", some "b.png"] =
      [⟨some "a.png", false⟩, ⟨none, true⟩, ⟨some "b.png", false⟩] := by
  refine ⟨(createImage_missing_src (some "") (Or.inr rfl)).1, ?_⟩
  rw [show ([some "a.png", some "", some "b.png"] : List (Option String)) =
    [some "a.png"] ++ some "" :: [some "b.png"] from rfl]
  rw [(createImage_missing_src (some "") (Or.inr rfl)).2 [some "a.png"] [some "b.png"]]
  rfl

/-- Claim C7: a code block annotated `language-python` renders as a
`CodeBlock` with language `"python"`, label `"Python"` and the copy
button enabled; a pre node with no class annotation (no inner code
element, or one without a class) falls back to the raw pre block. -/
theorem createCodeBlock_python (code : String) (props : PreProps) :
    createCodeBlock ⟨some ⟨some "language-python", code⟩⟩ =
      .codeBlock code "python" "Python" true ∧
    (props.children = none → createCodeBlock props = .rawPre props) ∧
    (∀ child, props.children = some child → child.className = none →
      createCodeBlock props = .rawPre props) := by
  refine ⟨rfl, fun h => ?_, fun child h1 h2 => ?_⟩
  · obtain ⟨ch⟩ := props
    cases h
    rfl
  · obtain ⟨ch⟩ := props
    cases h1
    obtain ⟨cn, cc⟩ := child
    cases h2
    rfl

theorem createCodeBlock_python_witness :
    createCodeBlock ⟨some ⟨some "language-python", "print(1)"⟩⟩ =
      .codeBlock "print(1)" "python" "Python" true ∧
    createCodeBlock ⟨none⟩ = .rawPre ⟨none⟩ :=
  ⟨(createCodeBlock_python "print(1)" ⟨none⟩).1,
   (createCodeBlock_python "print(1)" ⟨none⟩).2.1 rfl⟩

/-- Claim C8: in the table `CustomMDX` hands to the renderer, every
kind present in the caller's override map resolves to the override
entry, every other kind to the default entry, and an absent override
map leaves the defaults untouched. -/
theorem customMDX_merge {α : Type} (defaults over : List (String × α))
    (k : String) :
    (∀ v, objLookup over k = some v →
      objLookup (customMDXComponents defaults (some over)) k = some v) ∧
    (objLookup over k = none →
      objLookup (customMDXComponents defaults (some over)) k =
        objLookup defaults k) ∧
    customMDXComponents defaults none = defaults := by
  refine ⟨fun v h => ?_, fun h => ?_, ?_⟩
  · exact objLookup_append_some defaults h
  · exact objLookup_append_none defaults h
  · show defaults ++ [] = defaults
    exact List.append_nil defaults

theorem customMDX_merge_witness :
    objLookup (customMDXComponents [("p", 1), ("a", 2)] (some [("p", 7)])) "p" =
      some 7 ∧
    objLookup (customMDXComponents [("p", 1), ("a", 2)] (some [("p", 7)])) "a" =
      some 2 :=
  ⟨(customMDX_merge [("p", 1), ("a", 2)] [("p", 7)] "p").1 7 rfl,
   (customMDX_merge [("p", 1), ("a", 2)] [("p", 7)] "a").2.1 rfl⟩

/-- Claim C9: on any collection of at least two posts with pairwise
distinct publication dates, the `Projects` sorter returns a
permutation of the collection in strictly descending `publishedAt`
order. -/
theorem projects_descending (l : List Post) (_hlen : 2 ≤ l.length)
    (hdist : l.Pairwise fun a b =>
      a.metadata.publishedAt ≠ b.metadata.publishedAt) :
    (sortProjects l).Perm l ∧
    (sortProjects l).Pairwise fun a b =>
      b.metadata.publishedAt < a.metadata.publishedAt := by
  have hperm : (sortProjects l).Perm l := List.mergeSort_perm l _
  refine ⟨hperm, ?_⟩
  have hsorted := @List.sorted_mergeSort Post
    (fun a b => decide (projectsCompare a b ≤ 0))
    (fun a b c h1 h2 => by
      simp only [projectsCompare, decide_eq_true_eq] at h1 h2 ⊢
      omega)
    (fun a b => by
      simp only [projectsCompare, Bool.or_eq_true, decide_eq_true_eq]
      omega)
    l
  have hne : (sortProjects l).Pairwise fun a b =>
      a.metadata.publishedAt ≠ b.metadata.publishedAt :=
    hdist.perm hperm.symm fun h => h.symm
  exact (hsorted.and hne).imp fun h => by
    obtain ⟨h1, h2⟩ := h
    simp only [projectsCompare, decide_eq_true_eq] at h1
    omega

theorem projects_descending_witness :
    (sortProjects [⟨"p1", ⟨"t1", "s1", 100⟩, "c1"⟩,
      ⟨"p2", ⟨"t2", "s2", 300⟩, "c2"⟩]).Perm
      [⟨"p1", ⟨"t1", "s1", 100⟩, "c1"⟩, ⟨"p2", ⟨"t2", "s2", 300⟩, "c2"⟩] ∧
    (sortProjects [⟨"p1", ⟨"t1", "s1", 100⟩, "c1"⟩,
      ⟨"p2", ⟨"t2", "s2", 300⟩, "c2"⟩]).Pairwise
      fun a b => b.metadata.publishedAt < a.metadata.publishedAt :=
  projects_descending _ (by decide) (by decide)

/-- Claim C10: on an argument that is neither a string, a markup
element nor an array, `slugify` uses the JS string coercion of the
value and still returns a fully normalized slug, with no failure
(the embedding is a total function). -/
theorem slugify_coerces_other (s : String) :
    slugify (.other s) = slugifyString s ∧
    isSlugList (slugify (.other s)).data :=
  ⟨rfl, isSlugList_listSlugify s.data⟩
